import Mathlib

/-!
Verification of the image-grouping and sky-grid resolution code of gmadet.

Shallow embedding of `src/gmadet/ps1_survey.py` (functions `ps1_grid` and
`ps1_cell_coord`) and `src/gmadet/stacking.py` (function `table_obs` and the
group-name construction of `makelists`).

Conventions of the embedding:
* Python floats are modelled as `ℚ` where the code only performs field
  arithmetic and comparisons, and as `ℝ` where trigonometry is involved
  (the great-circle separation of `SkyCoord.separation`).
* Exceptions raised by the Python code are modelled with `Except`/`Option`.
* The gnomonic (TAN) projection of sub-tile corners and the shapely polygon
  intersection test (`ps1_survey.py` lines 16-55 and 80-90) are pure geometry
  consumed only through the boolean outcome "does the image polygon intersect
  this sub-tile polygon"; the embedding abstracts them as an explicit
  intersection-predicate parameter `inter`, so that every theorem below holds
  for whatever value the real geometry computes.
-/

attribute [local semireducible] Rat.add Rat.sub Rat.mul Rat.inv Rat.ofScientific

deriving instance DecidableEq for Except

/-- `np.rint`: round half to even, as used in
`projcell_idx = int(np.rint(closet_projcell_idx))` (ps1_survey.py line 141). -/
def rint (q : ℚ) : ℤ :=
  let f := q.floor
  let r := q - (f : ℚ)
  if r < 1/2 then f
  else if 1/2 < r then f + 1
  else if 2 ∣ f then f else f + 1

/-- `np.arange(a, b)` on integers: the list `[a, a+1, ..., b-1]`. -/
def intRange (a b : ℤ) : List ℤ :=
  (List.range (b - a).toNat).map (fun i => a + (i : ℤ))

/-- Decimal digits of `n`, least significant first, by structural recursion on
a fuel argument so the kernel can evaluate it. -/
def natDigitsAux : ℕ → ℕ → List ℕ
  | 0, _ => []
  | _ + 1, 0 => []
  | fuel + 1, n + 1 => (n + 1) % 10 :: natDigitsAux fuel ((n + 1) / 10)

/-- Decimal digits of `n`, least significant first. -/
def natDigits (n : ℕ) : List ℕ := natDigitsAux n n

/-- Python `str` of a non-negative integer (decimal digits). -/
def natRepr (n : ℕ) : String :=
  if n = 0 then "0" else ⟨(natDigits n).reverse.map Nat.digitChar⟩

/-- Python `str` of an integer. -/
def intRepr (z : ℤ) : String :=
  if z < 0 then "-" ++ natRepr z.natAbs else natRepr z.toNat

/-- One row of the static grid catalog `ps1_survey/ps1grid.fits` (spec §3
"ProjectionZone").  The catalog file itself is not part of `src/`; its rows
are modelled from the spec as declination bands with the columns the code
reads: ZONE, DEC_MIN, DEC_MAX, PROJCELL, NBAND, XCELL, YCELL, DEC, CRPIX1,
CRPIX2. -/
structure PS1Zone where
  zone : ℤ
  decMin : ℚ
  decMax : ℚ
  projcell : ℤ
  nband : ℤ
  xcell : ℚ
  ycell : ℚ
  dec : ℚ
  crpix1 : ℚ
  crpix2 : ℚ
deriving DecidableEq, Repr

/-- An image footprint given by its four corner world coordinates:
`im_corner_coords[0]` is the list of the four corner RAs and
`im_corner_coords[1]` the list of the four corner declinations. -/
structure Footprint where
  ra1 : ℚ
  ra2 : ℚ
  ra3 : ℚ
  ra4 : ℚ
  dec1 : ℚ
  dec2 : ℚ
  dec3 : ℚ
  dec4 : ℚ
deriving DecidableEq, Repr

/-- `ra_min = np.min(im_corner_coords[0])` (ps1_survey.py line 116). -/
def raMinF (f : Footprint) : ℚ := min (min f.ra1 f.ra2) (min f.ra3 f.ra4)

/-- `ra_max = np.max(im_corner_coords[0])` (line 117). -/
def raMaxF (f : Footprint) : ℚ := max (max f.ra1 f.ra2) (max f.ra3 f.ra4)

/-- `dec_min = np.min(im_corner_coords[1])` (line 118). -/
def decMinF (f : Footprint) : ℚ := min (min f.dec1 f.dec2) (min f.dec3 f.dec4)

/-- `dec_max = np.max(im_corner_coords[1])` (line 119). -/
def decMaxF (f : Footprint) : ℚ := max (max f.dec1 f.dec2) (max f.dec3 f.dec4)

/-- The zone mask of ps1_survey.py line 124:
`((DEC_MIN < dec_min) & (DEC_MAX > dec_min)) | ((DEC_MIN < dec_max) & (DEC_MAX > dec_max))`. -/
def gridMask (grid : List PS1Zone) (dmin dmax : ℚ) : List PS1Zone :=
  grid.filter (fun z =>
    (decide (z.decMin < dmin) && decide (z.decMax > dmin)) ||
    (decide (z.decMin < dmax) && decide (z.decMax > dmax)))

/-- `all_zones_id = np.arange(ps1grid[mask]['ZONE'][0], ps1grid[mask]['ZONE'][-1]+1)`
(line 127).  `none` models the `IndexError` raised when the mask selects no
row (`['ZONE'][0]` on an empty column). -/
def allZonesId (grid : List PS1Zone) (fp : Footprint) : Option (List ℤ) :=
  match gridMask grid (decMinF fp) (decMaxF fp) with
  | [] => none
  | m0 :: rest => some (intRange m0.zone ((rest.getLastD m0).zone + 1))

/-- `closet_projcell_idx = float(PROJCELL) + ra * float(NBAND) / 360` rounded
with `np.rint` (lines 140-141). -/
def zoneIdx (row : PS1Zone) (ra : ℚ) : ℤ :=
  rint ((row.projcell : ℚ) + ra * (row.nband : ℚ) / 360)

/-- The inner `for ra in [ra_min, ra_max]` loop of lines 136-145: append the
rounded index for each RA extremum to the running (shared!) index list,
skipping a repeat of the value held in `idx_bkp` (initialised to `-1` per
zone). -/
def raLoop (row : PS1Zone) (raMin raMax : ℚ) (acc : List ℤ) : List ℤ :=
  let i1 := zoneIdx row raMin
  let acc1 := if i1 ≠ -1 then acc ++ [i1] else acc
  let i2 := zoneIdx row raMax
  if i2 ≠ i1 then acc1 ++ [i2] else acc1

/-- Failure modes of `ps1_grid`, one per Python exception site. -/
inductive GridError where
  /-- `ps1grid[mask]['ZONE'][0]` on an empty mask (line 127, `IndexError`). -/
  | emptyMask : GridError
  /-- `float(ps1grid[mask]['PROJCELL'])` when the per-zone mask does not select
  exactly one row (line 140, `TypeError`). -/
  | zoneLookup : GridError
  /-- `projcell_idx_list[0]` on an empty list (line 147, `IndexError`). -/
  | emptyIdxList : GridError
  /-- `vstack([])` on an empty cell list (line 166, raised by astropy). -/
  | vstackEmpty : GridError
deriving DecidableEq, Repr

/-- Result of one iteration of the zone loop of lines 134-147: the zone id,
its (unique) catalog row and `total_proj_cell_idx`, the contiguous range
spanning the first and last entries of the shared `projcell_idx_list`. -/
structure SweepOut where
  zone : ℤ
  row : PS1Zone
  cells : List ℤ
deriving DecidableEq, Repr

/-- The zone loop of ps1_grid lines 130-147.  `acc` is the variable
`projcell_idx_list`, which the source initialises once, *outside* the zone
loop, so indices accumulate across zones. -/
def zoneSweepGo (grid : List PS1Zone) (raMin raMax : ℚ) :
    List ℤ → List ℤ → Except GridError (List SweepOut)
  | [], _ => .ok []
  | z :: zs, acc =>
    match grid.filter (fun r => r.zone == z) with
    | [row] =>
      match raLoop row raMin raMax acc with
      | [] => .error .emptyIdxList
      | a0 :: as' =>
        let cells := intRange a0 ((as'.getLastD a0) + 1)
        match zoneSweepGo grid raMin raMax zs (a0 :: as') with
        | .error e => .error e
        | .ok rest => .ok (⟨z, row, cells⟩ :: rest)
    | _ => .error .zoneLookup

/-- Zone selection plus the per-zone candidate projection-cell computation of
`ps1_grid` (lines 115-147). -/
def zoneSweep (grid : List PS1Zone) (fp : Footprint) :
    Except GridError (List SweepOut) :=
  match allZonesId grid fp with
  | none => .error .emptyMask
  | some zs => zoneSweepGo grid (raMinF fp) (raMaxF fp) zs []

/-- `ps1_cell_coord` (ps1_survey.py lines 57-100), parametrised by the
polygon-intersection outcome `inter y x` (the shapely
`im_poly.intersects(cell_poly)` test on the TAN-projected corner coordinates
of sub-tile `(y, x)`, lines 80-90).  Output rows are the
`(projcell_id, cell_id)` string pair appended for each intersecting sub-tile;
the four corner-coordinate columns are determined by the same geometry that
`inter` abstracts and are omitted. -/
def ps1_cell_coord (inter : ℕ → ℕ → Bool) (projcell_id : ℤ) :
    List (String × String) :=
  let pid := if projcell_id < 1000 then "0" ++ intRepr projcell_id
             else intRepr projcell_id
  (List.range 10).flatMap (fun y =>
    (List.range 10).filterMap (fun x =>
      if inter y x then some (pid, "0" ++ natRepr y ++ natRepr x) else none))

/-- `ps1_grid` (ps1_survey.py lines 103-168).  `inter c y x` abstracts the
polygon intersection of the image footprint with sub-tile `(y, x)` of
projection cell `c`.  The final `match` models lines 163-166: a single-table
result is returned as is, otherwise `vstack` concatenates the tables and
raises on an empty list. -/
def ps1_grid (grid : List PS1Zone) (inter : ℤ → ℕ → ℕ → Bool)
    (fp : Footprint) : Except GridError (List (String × String)) :=
  match zoneSweep grid fp with
  | .error e => .error e
  | .ok sweeps =>
    let all_cells := sweeps.foldl (fun acc s =>
      s.cells.foldl (fun acc cid =>
        let q := ps1_cell_coord (inter cid) cid
        if q ≠ [] then acc ++ [q] else acc) acc) []
    match all_cells with
    | [c] => .ok c
    | [] => .error .vstackEmpty
    | cs => .ok cs.flatten

/-- Zone 1 of the two-zone catalog used for the cross-zone counterexample:
a declination band 0°..10° with base projection cell 100 and 10 RA bands. -/
def c6z1 : PS1Zone := ⟨1, 0, 10, 100, 10, 6280, 6280, 5, 3141, 3141⟩

/-- Zone 2 of the two-zone catalog: declination band 10°..30°, base
projection cell 200, 12 RA bands. -/
def c6z2 : PS1Zone := ⟨2, 10, 30, 200, 12, 6280, 6280, 20, 3141, 3141⟩

/-- A two-zone grid catalog (contiguous declination bands, ascending zone
ids), modelled from the spec's ProjectionZone description. -/
def c6grid : List PS1Zone := [c6z1, c6z2]

/-- A footprint spanning both zones of `c6grid`: RA extent `[49, 51]`,
declination extent `[5, 15]`. -/
def c6fp : Footprint := ⟨49, 51, 51, 49, 5, 5, 15, 15⟩

/-- The 100 possible sub-cell id strings `'0yx'` of one projection cell,
`y, x ∈ 0..9`. -/
def subcellIds : List String :=
  (List.range 10).flatMap (fun y =>
    (List.range 10).map (fun x => "0" ++ natRepr y ++ natRepr x))

/-- Python `s.replace(" ", "")` applied to the telescope and filter strings
(stacking.py lines 302-303). -/
def stripSpaces (s : String) : String := ⟨s.data.filter (· ≠ ' ')⟩

/-- Fractional digits of the value `r/1000` (`0 ≤ r < 1000`) as Python float
`str` prints them: three digits with trailing zeros removed, at least one
digit. -/
def fracStr (r : ℕ) : String :=
  if r = 0 then "0"
  else ⟨(([r / 100 % 10, r / 10 % 10, r % 10].reverse.dropWhile
      (· == 0)).reverse).map Nat.digitChar⟩

/-- `str(np.round(x, 3)).replace(".", "")` (stacking.py lines 304-315): the
reference coordinate rounded half-to-even to three decimals, printed in
Python float notation (sign, integer part, point, fractional digits without
trailing zeros but at least one), then with the decimal point removed. -/
def coordStr (q : ℚ) : String :=
  let m := rint (q * 1000)
  let s := (if m < 0 then "-" else "") ++ natRepr (m.natAbs / 1000) ++ "."
    ++ fracStr (m.natAbs % 1000)
  ⟨s.data.filter (· ≠ '.')⟩

/-- Python `"%03d" % n` for `n ≥ 0` (field and epoch ids are at least 1). -/
def pad3 (n : ℤ) : String :=
  if n < 10 then "00" ++ intRepr n
  else if n < 100 then "0" ++ intRepr n
  else intRepr n

/-- The stacked-group file name of `makelists` (stacking.py lines 302-325):
`tel + "_" + band + "_" + ra + "_" + dec + "_field_%03d_%03d" % (field_id, epoch_id)`
with spaces removed from telescope and filter and the rounded reference
coordinates rendered by `coordStr`. -/
def nameOf (tel band : String) (raRef decRef : ℚ) (f e : ℤ) : String :=
  stripSpaces tel ++ "_" ++ stripSpaces band ++ "_" ++ coordStr raRef ++ "_"
    ++ coordStr decRef ++ "_field_" ++ pad3 f ++ "_" ++ pad3 e

/-- The group name as a function of the full group key
`((telescope, instrument, filter), fieldId, epochId)` plus the group's
reference coordinate.  The code builds the name from telescope, filter, the
rounded reference coordinate and the id pair only: the instrument component
of the partition key does not appear in it. -/
def groupName (tel inst band : String) (raRef decRef : ℚ) (f e : ℤ) :
    String :=
  nameOf tel band raRef decRef f e

/-- The FITS-header fields that `table_obs` reads for the timestamp
(stacking.py lines 84-95): `dateObs` models the Julian date parsed from the
`DATE-OBS` keyword when it is present and parseable, `jd` the raw `JD`
keyword. -/
structure HdrTime where
  dateObs : Option ℚ
  jd : Option ℚ
deriving DecidableEq, Repr

/-- The per-image timestamp extraction of `table_obs` (stacking.py lines
80-101).  `hr?` is the Python local variable `hr`, which survives across
loop iterations; when both keywords are missing the code only prints a
message, so `hr` keeps the previous image's value, which `Time.append(hr)`
then stores for the current image.  On the first image `hr` is unbound and
`Time.append(hr)` raises `NameError`, modelled by `.error ()`. -/
def readTimes : List HdrTime → Option ℚ → Except Unit (List ℚ)
  | [], _ => .ok []
  | h :: t, hr? =>
    let hr2 := match h.dateObs with
      | some d => some (d * 24)
      | none => match h.jd with
        | some j => some (j * 24)
        | none => hr?
    match hr2 with
    | none => .error ()
    | some v =>
      match readTimes t (some v) with
      | .error e => .error e
      | .ok vs => .ok (v :: vs)

/-- The `Time` column of the observation table built by `table_obs`. -/
def tableTimes (hdrs : List HdrTime) : Except Unit (List ℚ) :=
  readTimes hdrs none

/-- One step of the epoch loop of `table_obs` (stacking.py lines 232-240);
the state is `(JD_ref, epoch_id, epoch ids assigned so far)`. -/
def epochStep (deltaT : ℚ) (st : ℚ × ℤ × List ℤ) (jd : ℚ) : ℚ × ℤ × List ℤ :=
  if jd ≤ st.1 + deltaT then (st.1, st.2.1, st.2.2 ++ [st.2.1])
  else (jd, st.2.1 + 1, st.2.2 ++ [st.2.1 + 1])

/-- The epoch partition of one field (stacking.py lines 228-240): `JD_ref`
is initialised with the first member's timestamp (the field rows are in
ascending `JD` order after the global sort of line 152) and `epoch_id` with
1, then every member is tested in table order. -/
def assignEpochs (deltaT : ℚ) (jds : List ℚ) : List ℤ :=
  match jds with
  | [] => []
  | j0 :: _ => (jds.foldl (epochStep deltaT) (j0, 1, [])).2.2

/-- The reference timestamp of epoch `e` in a field whose member timestamps
are `jds` and assigned epoch ids `out`: the timestamp of the first member
carrying id `e`. -/
def epochRef (jds : List ℚ) (out : List ℤ) (e : ℤ) : Option ℚ :=
  ((jds.zip out).find? (fun q => q.2 == e)).map Prod.fst

/-- Recursive form of the epoch sweep, used only in proofs: `ref` and `e`
are the current epoch's reference timestamp and id. -/
def epochsAux (deltaT : ℚ) : ℚ → ℤ → List ℚ → List ℤ
  | _, _, [] => []
  | ref, e, j :: t =>
    if j ≤ ref + deltaT then e :: epochsAux deltaT ref e t
    else (e + 1) :: epochsAux deltaT j (e + 1) t

/-- Degrees to radians. -/
noncomputable def radOf (x : ℝ) : ℝ := x * Real.pi / 180

/-- Great-circle angular separation in degrees between two ICRS positions
given in degrees: the spherical law of cosines, i.e. the exact central angle
that `SkyCoord.separation` computes at stacking.py line 201. -/
noncomputable def sepDeg (ra1 dec1 ra2 dec2 : ℝ) : ℝ :=
  Real.arccos (Real.cos (radOf dec1) * Real.cos (radOf dec2) *
      Real.cos (radOf (ra1 - ra2)) +
    Real.sin (radOf dec1) * Real.sin (radOf dec2)) * 180 / Real.pi

/-- One row of one partition (fixed telescope, instrument, filter) of the
observation table, in ascending `JD` order after the sort of stacking.py
line 152: the unique image index `idx` and the `CRVAL1`/`CRVAL2`
coordinates in degrees. -/
structure Obs where
  idx : ℕ
  ra : ℝ
  dec : ℝ

/-- The assignment the clustering loop writes onto one row: the row data
plus `fieldID`, `RA_ref` and `Dec_ref` (stacking.py lines 206-216). -/
structure FAssign where
  idx : ℕ
  ra : ℝ
  dec : ℝ
  fieldID : ℤ
  raRef : ℝ
  decRef : ℝ

/-- First occurrence of each value, in order of appearance. -/
def dedupFirst (l : List ℤ) : List ℤ :=
  l.foldl (fun acc x => if x ∈ acc then acc else acc ++ [x]) []

/-- Insert into a sorted list. -/
def insertSorted (x : ℤ) : List ℤ → List ℤ
  | [] => [x]
  | y :: t => if x ≤ y then x :: y :: t else y :: insertSorted x t

/-- Sort ascending. -/
def sortKeys (l : List ℤ) : List ℤ := l.foldr insertSorted []

/-- `obs_table[mask2].group_by("fieldID").groups.keys` (stacking.py lines
190-192): the distinct field ids already assigned in this partition, in
ascending order. -/
def fieldKeys (assigns : List FAssign) : List ℤ :=
  sortKeys (dedupFirst (assigns.map FAssign.fieldID))

/-- The reference coordinate of field `k` (stacking.py lines 193-200): the
`RA`/`Dec` of the first table row carrying `fieldID == k` — the field's
first-assigned member, since rows are processed in table order. -/
def fieldRefCoords (assigns : List FAssign) (k : ℤ) : ℝ × ℝ :=
  match assigns.find? (fun a => a.fieldID == k) with
  | some a => (a.ra, a.dec)
  | none => (0, 0)

/-- State of the loop over the existing fields (stacking.py lines 188-204):
the running minimum separation `sep_min` (initialised to 100 degrees), the
selected field `field_ref` (initialised to -1), and the Python variables
`ra_ref`/`dec_ref`, which are overwritten on *every* iteration at lines
196-197, whether or not the field qualifies. -/
structure ScanSt where
  sepMin : ℝ
  fieldRef : ℤ
  raRef : ℝ
  decRef : ℝ

open Classical in
/-- One iteration of the field loop (stacking.py lines 190-204). -/
noncomputable def scanStep (radius : ℝ) (r : Obs) (assigns : List FAssign)
    (st : ScanSt) (k : ℤ) : ScanSt :=
  let rc := fieldRefCoords assigns k
  let sep := sepDeg r.ra r.dec rc.1 rc.2
  let st1 : ScanSt := ⟨st.sepMin, st.fieldRef, rc.1, rc.2⟩
  if sep < radius ∧ sep < st1.sepMin then ⟨sep, k, rc.1, rc.2⟩ else st1

/-- The full field scan for one unassigned record (stacking.py lines
188-204). -/
noncomputable def scanFields (radius : ℝ) (r : Obs) (assigns : List FAssign) :
    ScanSt :=
  (fieldKeys assigns).foldl (scanStep radius r assigns) ⟨100, -1, 0, 0⟩

open Classical in
/-- Processing of one record (stacking.py lines 177-216): if the scan
selected a field, the record is assigned to it together with the *final*
values of the loop variables `ra_ref`/`dec_ref` (lines 206-210); otherwise a
new field is opened with the record's own coordinates as reference (lines
211-216).  The state is `(field_id, rows assigned so far)`. -/
noncomputable def clusterStep (radius : ℝ) (st : ℤ × List FAssign) (r : Obs) :
    ℤ × List FAssign :=
  let sc := scanFields radius r st.2
  if sc.fieldRef ≠ -1 then
    (st.1, st.2 ++ [⟨r.idx, r.ra, r.dec, sc.fieldRef, sc.raRef, sc.decRef⟩])
  else
    (st.1 + 1, st.2 ++ [⟨r.idx, r.ra, r.dec, st.1 + 1, r.ra, r.dec⟩])

/-- The field clustering of one partition (stacking.py lines 163-216): the
first row is assigned `fieldID = 1` with its own coordinates as reference
(lines 171-175), then the remaining rows are processed in table order. -/
noncomputable def clusterFields (radius : ℝ) : List Obs → List FAssign
  | [] => []
  | r0 :: rest =>
    (rest.foldl (clusterStep radius)
      (1, [⟨r0.idx, r0.ra, r0.dec, 1, r0.ra, r0.dec⟩])).2

/-- Zone 1 of the boundary-aligned counterexample catalog: band 0°..10°. -/
def c1za : PS1Zone := ⟨1, 0, 10, 100, 10, 6280, 6280, 5, 3141, 3141⟩

/-- Zone 2 of the boundary-aligned counterexample catalog: band 10°..20°. -/
def c1zb : PS1Zone := ⟨2, 10, 20, 200, 10, 6280, 6280, 15, 3141, 3141⟩

/-- Zone 3 of the boundary-aligned counterexample catalog: band 20°..30°. -/
def c1zc : PS1Zone := ⟨3, 20, 30, 300, 10, 6280, 6280, 25, 3141, 3141⟩

/-- A three-zone catalog with contiguous declination bands, modelled from the
spec's ProjectionZone description. -/
def c1grid : List PS1Zone := [c1za, c1zb, c1zc]

/-- A rectangular footprint whose declination extent `[10, 20]` coincides
exactly with the bounds of zone `c1zb` (which it therefore overlaps in
full). -/
def c1fp : Footprint := ⟨100, 101, 101, 100, 10, 10, 20, 20⟩

/-- A one-zone catalog used for the no-intersection witness: declination
band 0°..10°, base projection cell 0, `NBAND = 0` so that every RA maps to
projection-cell index 0. -/
def c1wz : PS1Zone := ⟨1, 0, 10, 0, 0, 6280, 6280, 5, 3141, 3141⟩

/-- The one-zone catalog `[c1wz]`. -/
def c1wgrid : List PS1Zone := [c1wz]

/-- A footprint strictly inside the zone of `c1wgrid`: RA extent `[10, 20]`,
declination extent `[4, 6]`. -/
def c1wfp : Footprint := ⟨10, 20, 20, 10, 4, 4, 6, 6⟩

/-- Zone 1 of the boundary-exclusion counterexample catalog: band 10°..20°. -/
def c8z1 : PS1Zone := ⟨1, 10, 20, 100, 10, 6280, 6280, 15, 3141, 3141⟩

/-- Zone 2 of the boundary-exclusion counterexample catalog: band 20°..30°. -/
def c8z2 : PS1Zone := ⟨2, 20, 30, 200, 10, 6280, 6280, 25, 3141, 3141⟩

/-- The two-zone catalog `[c8z1, c8z2]`. -/
def c8grid : List PS1Zone := [c8z1, c8z2]

/-- A footprint with declination extent `[20, 25]`: it touches zone `c8z1`
exactly at the shared boundary 20° and lies inside zone `c8z2`. -/
def c8fp : Footprint := ⟨100, 101, 101, 100, 20, 20, 25, 25⟩

/-- A footprint with declination extent `[12, 18]`, strictly inside zone
`c8z1`. -/
def c8fpw : Footprint := ⟨100, 101, 101, 100, 12, 12, 18, 18⟩

/-- Read a token of decimal digit characters back as the number it denotes
(most significant digit first; leading zeros are immaterial). -/
def toNatTok (cs : List Char) : ℕ :=
  cs.foldl (fun a c => a * 10 + (c.toNat - 48)) 0

/-- The characters after the last underscore of a name. -/
def tailTok (cs : List Char) : List Char :=
  (cs.reverse.takeWhile (· != '_')).reverse

/-- The characters before the last underscore of a name. -/
def dropTail (cs : List Char) : List Char :=
  ((cs.reverse.dropWhile (· != '_')).drop 1).reverse

lemma sepDeg_nonneg (ra1 dec1 ra2 dec2 : ℝ) : 0 ≤ sepDeg ra1 dec1 ra2 dec2 := by
  have hpi := Real.pi_pos
  have h := Real.arccos_nonneg (Real.cos (radOf dec1) * Real.cos (radOf dec2) *
      Real.cos (radOf (ra1 - ra2)) + Real.sin (radOf dec1) * Real.sin (radOf dec2))
  unfold sepDeg
  exact div_nonneg (mul_nonneg h (by norm_num)) hpi.le

lemma sepDeg_equator (a b : ℝ) (h1 : -180 ≤ a - b) (h2 : a - b ≤ 180) :
    sepDeg a 0 b 0 = |a - b| := by
  have hpi := Real.pi_pos
  have habs : |a - b| ≤ 180 := abs_le.mpr ⟨h1, h2⟩
  have hmono : |a - b| * Real.pi ≤ 180 * Real.pi :=
    mul_le_mul_of_nonneg_right habs hpi.le
  have hle : radOf |a - b| ≤ Real.pi := by
    unfold radOf
    rw [div_le_iff₀ (by norm_num : (0:ℝ) < 180)]
    linarith
  have h0le : 0 ≤ radOf |a - b| := by
    unfold radOf
    positivity
  have habs2 : radOf |a - b| = |radOf (a - b)| := by
    unfold radOf
    rw [abs_div, abs_mul, abs_of_pos hpi, abs_of_pos (by norm_num : (0:ℝ) < 180)]
  have hcos : Real.cos (radOf (a - b)) = Real.cos (radOf |a - b|) := by
    rw [habs2, Real.cos_abs]
  unfold sepDeg
  rw [show radOf 0 = 0 by unfold radOf; ring]
  rw [Real.cos_zero, Real.sin_zero]
  rw [show (1:ℝ) * 1 * Real.cos (radOf (a - b)) + 0 * 0
      = Real.cos (radOf (a - b)) by ring]
  rw [hcos, Real.arccos_cos h0le hle]
  unfold radOf
  field_simp

lemma mem_intRange {a b x : ℤ} : x ∈ intRange a b ↔ a ≤ x ∧ x < b := by
  simp only [intRange, List.mem_map, List.mem_range]
  constructor
  · rintro ⟨i, hi, rfl⟩
    simp at hi
    obtain ⟨j, hj, rfl⟩ := hi
    omega
  · intro ⟨h1, h2⟩
    refine ⟨(x - a), ?_, by omega⟩
    simp
    exact ⟨(x - a).toNat, by omega, by omega⟩

lemma sorted_head_le {α : Type} [Preorder α] {a : α} {t : List α}
    (hs : (a :: t).Sorted (· ≤ ·)) {x : α} (hx : x ∈ a :: t) : a ≤ x := by
  rcases List.mem_cons.mp hx with rfl | hx'
  · exact le_refl _
  · exact (List.rel_of_sorted_cons hs) _ hx'

lemma sorted_le_getLastD {l : List ℤ} (hs : l.Sorted (· ≤ ·)) :
    ∀ x ∈ l, ∀ d : ℤ, x ≤ l.getLastD d := by
  induction l with
  | nil => intro x hx; cases hx
  | cons a t ih =>
    intro x hx d
    cases t with
    | nil =>
      simp only [List.mem_singleton] at hx
      subst hx
      simp
    | cons b t' =>
      rw [List.getLastD_cons]
      rcases List.mem_cons.mp hx with rfl | hx'
      · have hb : x ≤ b := (List.rel_of_sorted_cons hs) b (by simp)
        have h2 := ih hs.of_cons b (by simp) x
        exact le_trans hb h2
      · exact ih hs.of_cons x hx' a

lemma getLastD_map_zone (l : List PS1Zone) (d : PS1Zone) :
    (l.map PS1Zone.zone).getLastD d.zone = (l.getLastD d).zone := by
  induction l generalizing d with
  | nil => rfl
  | cons a t ih =>
    rw [List.map_cons, List.getLastD_cons, List.getLastD_cons]
    exact ih a

/-- C6: the claim states that for every selected zone the candidate
projection cells are exactly the contiguous range spanning the two indices
`round(basecell + ra * bandCount / 360)` computed from that zone's base cell
at the image's RA extrema.  The code violates this when more than one zone is
selected, because `projcell_idx_list` is initialised outside the zone loop
(ps1_survey.py line 130) and therefore accumulates across zones: here both
RA-extremum indices of zone 2 equal 202, so the claimed candidate set is
`[202]`, yet the code examines the full range 101..202, which starts at an
index computed from zone 1's base cell. -/
theorem c6_cross_zone_accumulation :
    zoneSweep c6grid c6fp
      = .ok [⟨1, c6z1, [101]⟩, ⟨2, c6z2, intRange 101 203⟩]
    ∧ zoneIdx c6z2 (raMinF c6fp) = 202 ∧ zoneIdx c6z2 (raMaxF c6fp) = 202
    ∧ intRange 202 203 = [202]
    ∧ (101 : ℤ) ∈ intRange 101 203 ∧ (101 : ℤ) ∉ ([202] : List ℤ)
    ∧ zoneIdx c6z1 (raMinF c6fp) = 101 := by decide

/-- C8 counterexample: zone `c8z1` has declination interval `[10, 20]`,
which intersects the image's declination extent `[20, 25]` (they share the
boundary point 20), yet the strict inequalities of the mask at ps1_survey.py
line 124 exclude it, and the set of evaluated zones is `[2]` only. -/
theorem c8_boundary_zone_excluded :
    allZonesId c8grid c8fp = some [2]
    ∧ max c8z1.decMin (decMinF c8fp) ≤ min c8z1.decMax (decMaxF c8fp)
    ∧ c8z1.zone = 1 ∧ (1 : ℤ) ∉ ([2] : List ℤ) := by decide

/-- C8 amended: every zone whose *open* declination interval strictly
contains one of the image's declination extrema is evaluated by the
resolver, together with every zone between the first and last such zones (in
a catalog sorted by zone id); zones that meet the extent only at an interval
boundary may be omitted. -/
theorem c8_amended_open_interval (grid : List PS1Zone) (fp : Footprint)
    (z : PS1Zone)
    (hsort : (grid.map PS1Zone.zone).Sorted (· ≤ ·))
    (hz : z ∈ grid)
    (hopen : (z.decMin < decMinF fp ∧ decMinF fp < z.decMax)
      ∨ (z.decMin < decMaxF fp ∧ decMaxF fp < z.decMax)) :
    ∃ zl, allZonesId grid fp = some zl ∧ z.zone ∈ zl := by
  have hmem : z ∈ gridMask grid (decMinF fp) (decMaxF fp) := by
    refine List.mem_filter.mpr ⟨hz, ?_⟩
    simp only [Bool.or_eq_true, Bool.and_eq_true, decide_eq_true_eq]
    rcases hopen with ⟨h1, h2⟩ | ⟨h1, h2⟩
    · exact Or.inl ⟨h1, h2⟩
    · exact Or.inr ⟨h1, h2⟩
  have hsub : (gridMask grid (decMinF fp) (decMaxF fp)).Sublist grid :=
    List.filter_sublist _
  have hsorted2 :
      ((gridMask grid (decMinF fp) (decMaxF fp)).map PS1Zone.zone).Sorted
        (· ≤ ·) := hsort.sublist (hsub.map _)
  rcases hmaskeq : gridMask grid (decMinF fp) (decMaxF fp) with _ | ⟨m0, rest⟩
  · rw [hmaskeq] at hmem
    cases hmem
  · rw [hmaskeq] at hmem hsorted2
    refine ⟨intRange m0.zone ((rest.getLastD m0).zone + 1), ?_, ?_⟩
    · unfold allZonesId
      rw [hmaskeq]
    · rw [mem_intRange]
      have hzmem : z.zone ∈ (m0 :: rest).map PS1Zone.zone :=
        List.mem_map_of_mem _ hmem
      constructor
      · rw [List.map_cons] at hzmem hsorted2
        exact sorted_head_le hsorted2 hzmem
      · have hle := sorted_le_getLastD hsorted2 z.zone hzmem m0.zone
        rw [show ((m0 :: rest).map PS1Zone.zone).getLastD m0.zone
            = ((m0 :: rest).getLastD m0).zone from getLastD_map_zone _ _] at hle
        rw [List.getLastD_cons] at hle
        omega

/-- C8 witness: in the concrete catalog `c8grid`, the footprint `c8fpw`
(declination extent `[12, 18]`) lies strictly inside zone 1, and the
resolver indeed evaluates zone 1. -/
theorem c8_amended_witness :
    ((c8grid.map PS1Zone.zone).Sorted (· ≤ ·))
    ∧ (c8z1 ∈ c8grid)
    ∧ (c8z1.decMin < decMinF c8fpw ∧ decMinF c8fpw < c8z1.decMax)
    ∧ ∃ zl, allZonesId c8grid c8fpw = some zl ∧ c8z1.zone ∈ zl :=
  ⟨by decide, by decide, by decide,
    c8_amended_open_interval c8grid c8fpw c8z1 (by decide) (by decide)
      (Or.inl (by decide))⟩

/-- C10: every row that `ps1_cell_coord` emits — for any outcome of the
polygon-intersection geometry — has a sub-cell id of the form `'0yx'` with
`y, x ∈ 0..9` (one of exactly 100 possible values), and its projection-cell
id string is left-padded with one `'0'` exactly when the numeric id is below
1000 (ps1_survey.py lines 65-69 and 91-92). -/
theorem c10_subcell_id_format (inter : ℕ → ℕ → Bool) (pid : ℤ)
    (row : String × String) (h : row ∈ ps1_cell_coord inter pid) :
    (∃ y x : ℕ, y < 10 ∧ x < 10 ∧ row.2 = "0" ++ natRepr y ++ natRepr x)
    ∧ row.1 = (if pid < 1000 then "0" ++ intRepr pid else intRepr pid)
    ∧ row.2 ∈ subcellIds ∧ subcellIds.length = 100 ∧ subcellIds.Nodup := by
  unfold ps1_cell_coord at h
  simp only [List.mem_flatMap, List.mem_filterMap, List.mem_range] at h
  obtain ⟨y, hy, x, hx, hcase⟩ := h
  rcases hinter : inter y x with _ | _ <;> rw [hinter] at hcase
  · simp at hcase
  · rw [if_pos rfl] at hcase
    injection hcase with hcase
    subst hcase
    refine ⟨⟨y, x, hy, hx, rfl⟩, rfl, ?_, by decide, by decide⟩
    simp only [subcellIds, List.mem_flatMap, List.mem_map, List.mem_range]
    exact ⟨y, hy, x, hx, rfl⟩

/-- C10 witness: with every sub-tile intersecting, projection cell 660
yields the row `("0660", "000")`, whose components have the stated form. -/
theorem c10_subcell_id_format_witness :
    (("0660", "000") ∈ ps1_cell_coord (fun _ _ => true) 660)
    ∧ ((∃ y x : ℕ, y < 10 ∧ x < 10
        ∧ ("0660", "000").2 = "0" ++ natRepr y ++ natRepr x)
      ∧ ("0660", "000").1
        = (if (660 : ℤ) < 1000 then "0" ++ intRepr 660 else intRepr 660)
      ∧ ("0660", "000").2 ∈ subcellIds ∧ subcellIds.length = 100
      ∧ subcellIds.Nodup) :=
  ⟨by decide, c10_subcell_id_format (fun _ _ => true) 660 _ (by decide)⟩

lemma zoneSweepGo_ne_emptyMask (grid : List PS1Zone) (a b : ℚ) :
    ∀ (zs acc : List ℤ), zoneSweepGo grid a b zs acc ≠ .error .emptyMask := by
  intro zs
  induction zs with
  | nil =>
    intro acc h
    simp [zoneSweepGo] at h
  | cons z zs ih =>
    intro acc h
    unfold zoneSweepGo at h
    split at h
    · split at h
      · exact absurd (Except.error.inj h) (by intro hh; cases hh)
      · split at h
        · rename_i e heq
          rw [Except.error.inj h] at heq
          exact ih _ heq
        · cases h
    · exact absurd (Except.error.inj h) (by intro hh; cases hh)

lemma raLoop_ne_nil (row : PS1Zone) (a b : ℚ) (acc : List ℤ)
    (h : zoneIdx row a ≠ -1) : raLoop row a b acc ≠ [] := by
  unfold raLoop
  dsimp only
  rw [if_pos h]
  split <;> simp

lemma zoneSweepGo_ok (grid : List PS1Zone) (a b : ℚ)
    (hb : ∀ row ∈ grid, 0 ≤ zoneIdx row a) :
    ∀ (zs acc : List ℤ),
      (∀ z ∈ zs, (grid.filter (fun r => r.zone == z)).length = 1) →
      ∃ sweeps, zoneSweepGo grid a b zs acc = .ok sweeps := by
  intro zs
  induction zs with
  | nil => exact fun acc _ => ⟨[], rfl⟩
  | cons z zs ih =>
    intro acc hz
    obtain ⟨row, hrow⟩ := List.length_eq_one.mp (hz z (by simp))
    have hmem : row ∈ grid := by
      have h1 : row ∈ grid.filter (fun r => r.zone == z) := by
        rw [hrow]; simp
      exact (List.mem_filter.mp h1).1
    have hi1 : zoneIdx row a ≠ -1 := by
      have := hb row hmem
      omega
    obtain ⟨a0, as', hra⟩ :=
      List.exists_cons_of_ne_nil (raLoop_ne_nil row a b acc hi1)
    obtain ⟨sweeps, hs⟩ := ih (a0 :: as') (fun z' hz' => hz z' (by simp [hz']))
    refine ⟨⟨z, row, intRange a0 ((as'.getLastD a0) + 1)⟩ :: sweeps, ?_⟩
    simp only [zoneSweepGo, hrow, hra, hs]

lemma ps1_cell_coord_all_false (inter0 : ℕ → ℕ → Bool) (pid : ℤ)
    (h : ∀ y x, inter0 y x = false) : ps1_cell_coord inter0 pid = [] := by
  unfold ps1_cell_coord
  simp [h]

lemma cells_foldl_all_false (inter : ℤ → ℕ → ℕ → Bool)
    (h : ∀ c y x, inter c y x = false) :
    ∀ (cells : List ℤ) (acc : List (List (String × String))),
      cells.foldl (fun acc cid =>
        let q := ps1_cell_coord (inter cid) cid
        if q ≠ [] then acc ++ [q] else acc) acc = acc := by
  intro cells
  induction cells with
  | nil => intro acc; rfl
  | cons c t ih =>
    intro acc
    have hq : ps1_cell_coord (inter c) c = [] :=
      ps1_cell_coord_all_false _ _ (fun y x => h c y x)
    simp only [List.foldl_cons, hq]
    rw [if_neg (by simp)]
    exact ih acc

lemma sweeps_foldl_all_false (inter : ℤ → ℕ → ℕ → Bool)
    (h : ∀ c y x, inter c y x = false) :
    ∀ (sweeps : List SweepOut) (acc : List (List (String × String))),
      sweeps.foldl (fun acc s =>
        s.cells.foldl (fun acc cid =>
          let q := ps1_cell_coord (inter cid) cid
          if q ≠ [] then acc ++ [q] else acc) acc) acc = acc := by
  intro sweeps
  induction sweeps with
  | nil => intro acc; rfl
  | cons s t ih =>
    intro acc
    simp only [List.foldl_cons]
    rw [cells_foldl_all_false inter h s.cells acc]
    exact ih acc

/-- C1 counterexample: the footprint `c1fp` has finite, valid coordinates
and its declination extent `[10, 20]` coincides with (hence overlaps) zone
`c1zb` of the catalog, yet `ps1_grid` raises the `IndexError` of
ps1_survey.py line 127, because both declination extrema lie exactly on
zone boundaries and the strict mask of line 124 selects no zone. -/
theorem c1_throws_on_boundary_footprint :
    ps1_grid c1grid (fun _ _ _ => true) c1fp = .error .emptyMask
    ∧ c1zb.decMin ≤ decMinF c1fp ∧ decMaxF c1fp ≤ c1zb.decMax
    ∧ c1zb ∈ c1grid := by decide

/-- C1 amended: (a) if some zone's open declination interval strictly
contains one of the footprint's declination extrema, `ps1_grid` does not
raise the empty-mask `IndexError` of line 127; and (b) when candidate zones
are examined (with unique zone rows and non-negative projection-cell
indices) but no sub-tile polygon intersects the footprint, `ps1_grid`
raises the error of `vstack([])` at line 166 instead of returning an empty
set of SkyCells. -/
theorem c1_amended_error_behaviour (grid : List PS1Zone) (fp : Footprint)
    (inter : ℤ → ℕ → ℕ → Bool)
    (hmask : gridMask grid (decMinF fp) (decMaxF fp) ≠ []) :
    ps1_grid grid inter fp ≠ .error .emptyMask
    ∧ ((∀ z ∈ (allZonesId grid fp).getD [],
          (grid.filter (fun r => r.zone == z)).length = 1) →
       (∀ row ∈ grid, 0 ≤ zoneIdx row (raMinF fp)) →
       (∀ c y x, inter c y x = false) →
       ps1_grid grid inter fp = .error .vstackEmpty) := by
  rcases hmaskeq : gridMask grid (decMinF fp) (decMaxF fp) with _ | ⟨m0, rest⟩
  · exact absurd hmaskeq hmask
  have hzones : allZonesId grid fp
      = some (intRange m0.zone ((rest.getLastD m0).zone + 1)) := by
    unfold allZonesId
    rw [hmaskeq]
  constructor
  · intro h
    unfold ps1_grid at h
    rw [show zoneSweep grid fp = zoneSweepGo grid (raMinF fp) (raMaxF fp)
        (intRange m0.zone ((rest.getLastD m0).zone + 1)) [] by
      unfold zoneSweep; rw [hzones]] at h
    rcases hgo : zoneSweepGo grid (raMinF fp) (raMaxF fp)
        (intRange m0.zone ((rest.getLastD m0).zone + 1)) [] with e | sweeps
    · rw [hgo] at h
      rw [Except.error.inj h] at hgo
      exact zoneSweepGo_ne_emptyMask grid _ _ _ _ hgo
    · rw [hgo] at h
      split at h
      · rename_i heq
        cases heq
      · dsimp only at h
        split at h
        · cases h
        · exact absurd (Except.error.inj h) (by intro hh; cases hh)
        · cases h
  · intro hlen hpos hfalse
    obtain ⟨sweeps, hgo⟩ := zoneSweepGo_ok grid (raMinF fp) (raMaxF fp) hpos
      (intRange m0.zone ((rest.getLastD m0).zone + 1)) []
      (by rw [hzones] at hlen; exact hlen)
    have hsweep2 : zoneSweep grid fp = .ok sweeps := by
      unfold zoneSweep
      rw [hzones]
      exact hgo
    simp only [ps1_grid, hsweep2]
    rw [sweeps_foldl_all_false inter hfalse sweeps []]

/-- C1 witness: in the one-zone catalog `c1wgrid` the footprint `c1wfp`
lies strictly inside the zone; with no sub-tile intersecting, the resolver
raises the empty-`vstack` error (and in particular does not raise the
zone-selection `IndexError`). -/
theorem c1_amended_error_behaviour_witness :
    gridMask c1wgrid (decMinF c1wfp) (decMaxF c1wfp) ≠ []
    ∧ ps1_grid c1wgrid (fun _ _ _ => false) c1wfp ≠ .error .emptyMask
    ∧ ps1_grid c1wgrid (fun _ _ _ => false) c1wfp = .error .vstackEmpty :=
  ⟨by decide,
    (c1_amended_error_behaviour c1wgrid c1wfp _ (by decide)).1,
    (c1_amended_error_behaviour c1wgrid c1wfp _ (by decide)).2
      (by decide) (by decide) (fun _ _ _ => rfl)⟩

/-- C3: when an image header lacks both the `DATE-OBS` and the `JD` keyword,
`table_obs` only prints a message (stacking.py lines 92-95) and then appends
the *previous* image's value of the local variable `hr`: with a first header
carrying `JD = 2450000` and a second header carrying neither keyword, the
`Time` column becomes `[58800000, 58800000]` (hours), i.e. the stale
timestamp is silently propagated into the observation table as a valid
value; only for the very first image does the code raise (`NameError`). -/
theorem c3_stale_timestamp_propagated :
    tableTimes [⟨none, some 2450000⟩, ⟨none, none⟩] = .ok [58800000, 58800000]
    ∧ tableTimes [⟨none, none⟩] = .error () := by decide

lemma natDigitsAux_eq (fuel : ℕ) : ∀ n : ℕ, n ≤ fuel →
    natDigitsAux fuel n = Nat.digits 10 n := by
  induction fuel with
  | zero =>
    intro n hn
    interval_cases n
    simp [natDigitsAux]
  | succ f ih =>
    intro n hn
    cases n with
    | zero => simp [natDigitsAux]
    | succ m =>
      rw [natDigitsAux, Nat.digits_def' (by norm_num : 1 < 10) (Nat.succ_pos m)]
      rw [ih ((m + 1) / 10) (by omega)]

lemma natDigits_eq (n : ℕ) : natDigits n = Nat.digits 10 n :=
  natDigitsAux_eq n n le_rfl

lemma toNatTok_digits (L : List ℕ) (hL : ∀ d ∈ L, d < 10) :
    toNatTok (L.reverse.map Nat.digitChar) = Nat.ofDigits 10 L := by
  unfold toNatTok
  rw [List.foldl_map, List.foldl_reverse]
  induction L with
  | nil => simp [Nat.ofDigits]
  | cons d L ih =>
    rw [List.foldr_cons, Nat.ofDigits_cons]
    rw [ih (fun x hx => hL x (by simp [hx]))]
    have hd : d < 10 := hL d (by simp)
    have hchar : (Nat.digitChar d).toNat - 48 = d := by
      interval_cases d <;> decide
    omega

lemma toNatTok_natRepr (n : ℕ) : toNatTok (natRepr n).data = n := by
  unfold natRepr
  by_cases h : n = 0
  · subst h
    decide
  · rw [if_neg h]
    show toNatTok ((natDigits n).reverse.map Nat.digitChar) = n
    rw [natDigits_eq,
      toNatTok_digits _ (fun d hd => Nat.digits_lt_base (by norm_num) hd)]
    exact Nat.ofDigits_digits 10 n

lemma toNatTok_cons_zero (cs : List Char) : toNatTok ('0' :: cs) = toNatTok cs :=
  rfl

lemma toNatTok_pad3 (z : ℤ) (hz : 0 ≤ z) : toNatTok (pad3 z).data = z.toNat := by
  have hir : intRepr z = natRepr z.toNat := by
    unfold intRepr
    rw [if_neg (by omega)]
  unfold pad3
  by_cases h1 : z < 10
  · rw [if_pos h1, hir]
    show toNatTok ('0' :: '0' :: (natRepr z.toNat).data) = z.toNat
    rw [toNatTok_cons_zero, toNatTok_cons_zero, toNatTok_natRepr]
  · rw [if_neg h1]
    by_cases h2 : z < 100
    · rw [if_pos h2, hir]
      show toNatTok ('0' :: (natRepr z.toNat).data) = z.toNat
      rw [toNatTok_cons_zero, toNatTok_natRepr]
    · rw [if_neg h2, hir, toNatTok_natRepr]

lemma natRepr_no_underscore (n : ℕ) : '_' ∉ (natRepr n).data := by
  unfold natRepr
  by_cases h : n = 0
  · subst h
    decide
  · rw [if_neg h]
    show '_' ∉ (natDigits n).reverse.map Nat.digitChar
    rw [natDigits_eq]
    intro hmem
    obtain ⟨d, hd, hEq⟩ := List.mem_map.mp hmem
    have hlt : d < 10 :=
      Nat.digits_lt_base (by norm_num) (List.mem_reverse.mp hd)
    revert hEq
    interval_cases d <;> decide

lemma pad3_no_underscore (z : ℤ) (hz : 0 ≤ z) : '_' ∉ (pad3 z).data := by
  have hir : intRepr z = natRepr z.toNat := by
    unfold intRepr
    rw [if_neg (by omega)]
  unfold pad3
  by_cases h1 : z < 10
  · rw [if_pos h1, hir]
    intro hmem
    rw [String.data_append] at hmem
    rcases List.mem_append.mp hmem with h | h
    · exact absurd h (by decide)
    · exact natRepr_no_underscore _ h
  · rw [if_neg h1]
    by_cases h2 : z < 100
    · rw [if_pos h2, hir]
      intro hmem
      rw [String.data_append] at hmem
      rcases List.mem_append.mp hmem with h | h
      · exact absurd h (by decide)
      · exact natRepr_no_underscore _ h
    · rw [if_neg h2, hir]
      exact natRepr_no_underscore _

lemma takeWhile_all_append (p : Char → Bool) (l1 : List Char) (x : Char)
    (l2 : List Char) (h1 : ∀ c ∈ l1, p c = true) (hx : p x = false) :
    (l1 ++ x :: l2).takeWhile p = l1 := by
  induction l1 with
  | nil => simp [List.takeWhile_cons, hx]
  | cons a t ih =>
    rw [List.cons_append, List.takeWhile_cons, h1 a (by simp), if_pos rfl]
    rw [ih (fun c hc => h1 c (by simp [hc]))]

lemma dropWhile_all_append (p : Char → Bool) (l1 : List Char) (x : Char)
    (l2 : List Char) (h1 : ∀ c ∈ l1, p c = true) (hx : p x = false) :
    (l1 ++ x :: l2).dropWhile p = x :: l2 := by
  induction l1 with
  | nil => simp [List.dropWhile_cons, hx]
  | cons a t ih =>
    rw [List.cons_append, List.dropWhile_cons, h1 a (by simp), if_pos rfl]
    exact ih (fun c hc => h1 c (by simp [hc]))

lemma tailTok_append (p t : List Char) (ht : '_' ∉ t) :
    tailTok (p ++ '_' :: t) = t := by
  unfold tailTok
  rw [List.reverse_append, List.reverse_cons, List.append_assoc,
    List.singleton_append]
  rw [takeWhile_all_append _ _ '_' _
    (fun c hc => by
      have : c ≠ '_' := fun hcc => ht (by
        subst hcc
        exact List.mem_reverse.mp hc)
      simp [this])
    (by simp)]
  exact List.reverse_reverse t

lemma dropTail_append (p t : List Char) (ht : '_' ∉ t) :
    dropTail (p ++ '_' :: t) = p := by
  unfold dropTail
  rw [List.reverse_append, List.reverse_cons, List.append_assoc,
    List.singleton_append]
  rw [dropWhile_all_append _ _ '_' _
    (fun c hc => by
      have : c ≠ '_' := fun hcc => ht (by
        subst hcc
        exact List.mem_reverse.mp hc)
      simp [this])
    (by simp)]
  rw [List.drop_one, List.tail_cons, List.reverse_reverse]

lemma nameOf_split_epoch (tel band : String) (r d : ℚ) (f e : ℤ) :
    (nameOf tel band r d f e).data
      = (stripSpaces tel ++ "_" ++ stripSpaces band ++ "_" ++ coordStr r ++ "_"
          ++ coordStr d ++ "_field_" ++ pad3 f).data ++ '_' :: (pad3 e).data := by
  have hu : ("_" : String).data = ['_'] := rfl
  unfold nameOf
  simp only [String.data_append, hu, List.append_assoc, List.singleton_append]

lemma prefix_split_field (tel band : String) (r d : ℚ) (f : ℤ) :
    (stripSpaces tel ++ "_" ++ stripSpaces band ++ "_" ++ coordStr r ++ "_"
      ++ coordStr d ++ "_field_" ++ pad3 f).data
      = (stripSpaces tel ++ "_" ++ stripSpaces band ++ "_" ++ coordStr r ++ "_"
          ++ coordStr d ++ "_field").data ++ '_' :: (pad3 f).data := by
  have hu : ("_" : String).data = ['_'] := rfl
  have hf1 : ("_field_" : String).data
      = '_' :: 'f' :: 'i' :: 'e' :: 'l' :: 'd' :: ['_'] := rfl
  have hf2 : ("_field" : String).data
      = '_' :: 'f' :: 'i' :: 'e' :: 'l' :: 'd' :: [] := rfl
  simp only [String.data_append, hu, hf1, hf2, List.append_assoc,
    List.cons_append, List.nil_append, List.singleton_append]

/-- C4 amended: the group name determines the `(fieldId, epochId)` pair, so
within one partition (where the key `(partition, fieldId, epochId)` varies
only in the id pair) distinct groups always receive distinct names — for
*any* telescope, filter and reference-coordinate values.  Across partitions
the claimed injectivity fails because the name does not encode the
instrument (see the counterexample). -/
theorem c4_name_determines_field_epoch (tel1 band1 tel2 band2 : String)
    (ra1 dec1 ra2 dec2 : ℚ) (f1 e1 f2 e2 : ℤ)
    (hf1 : 0 ≤ f1) (he1 : 0 ≤ e1) (hf2 : 0 ≤ f2) (he2 : 0 ≤ e2)
    (hne : (f1, e1) ≠ (f2, e2)) :
    nameOf tel1 band1 ra1 dec1 f1 e1 ≠ nameOf tel2 band2 ra2 dec2 f2 e2 := by
  intro h
  have hd := congrArg String.data h
  rw [nameOf_split_epoch, nameOf_split_epoch] at hd
  have he : (pad3 e1).data = (pad3 e2).data := by
    have h1 := tailTok_append
      (stripSpaces tel1 ++ "_" ++ stripSpaces band1 ++ "_" ++ coordStr ra1
        ++ "_" ++ coordStr dec1 ++ "_field_" ++ pad3 f1).data
      (pad3 e1).data (pad3_no_underscore e1 he1)
    have h2 := tailTok_append
      (stripSpaces tel2 ++ "_" ++ stripSpaces band2 ++ "_" ++ coordStr ra2
        ++ "_" ++ coordStr dec2 ++ "_field_" ++ pad3 f2).data
      (pad3 e2).data (pad3_no_underscore e2 he2)
    rw [← h1, ← h2, hd]
  have heqe : e1 = e2 := by
    have htn := congrArg toNatTok he
    rw [toNatTok_pad3 e1 he1, toNatTok_pad3 e2 he2] at htn
    omega
  have hx : (stripSpaces tel1 ++ "_" ++ stripSpaces band1 ++ "_"
        ++ coordStr ra1 ++ "_" ++ coordStr dec1 ++ "_field_" ++ pad3 f1).data
      = (stripSpaces tel2 ++ "_" ++ stripSpaces band2 ++ "_" ++ coordStr ra2
        ++ "_" ++ coordStr dec2 ++ "_field_" ++ pad3 f2).data := by
    have h1 := dropTail_append
      (stripSpaces tel1 ++ "_" ++ stripSpaces band1 ++ "_" ++ coordStr ra1
        ++ "_" ++ coordStr dec1 ++ "_field_" ++ pad3 f1).data
      (pad3 e1).data (pad3_no_underscore e1 he1)
    have h2 := dropTail_append
      (stripSpaces tel2 ++ "_" ++ stripSpaces band2 ++ "_" ++ coordStr ra2
        ++ "_" ++ coordStr dec2 ++ "_field_" ++ pad3 f2).data
      (pad3 e2).data (pad3_no_underscore e2 he2)
    rw [← h1, ← h2, hd]
  rw [prefix_split_field, prefix_split_field] at hx
  have hf : (pad3 f1).data = (pad3 f2).data := by
    have h1 := tailTok_append
      (stripSpaces tel1 ++ "_" ++ stripSpaces band1 ++ "_" ++ coordStr ra1
        ++ "_" ++ coordStr dec1 ++ "_field").data
      (pad3 f1).data (pad3_no_underscore f1 hf1)
    have h2 := tailTok_append
      (stripSpaces tel2 ++ "_" ++ stripSpaces band2 ++ "_" ++ coordStr ra2
        ++ "_" ++ coordStr dec2 ++ "_field").data
      (pad3 f2).data (pad3_no_underscore f2 hf2)
    rw [← h1, ← h2, hx]
  have heqf : f1 = f2 := by
    have htn := congrArg toNatTok hf
    rw [toNatTok_pad3 f1 hf1, toNatTok_pad3 f2 hf2] at htn
    omega
  exact hne (by rw [heqf, heqe])

/-- C4 counterexample: two group keys that differ only in the instrument
component of the partition — `("T", "I1", "g")` versus `("T", "I2", "g")`,
both with `fieldId = epochId = 1` and the same reference coordinate — are
distinct keys, yet the derived names are identical, because the name never
encodes the instrument (stacking.py lines 302-325). -/
theorem c4_name_collision_across_instruments :
    groupName "T" "I1" "g" 100 0 1 1 = groupName "T" "I2" "g" 100 0 1 1
    ∧ ("I1" : String) ≠ "I2" := ⟨rfl, by decide⟩

/-- C4 witness: two distinct id pairs within one partition receive distinct
names. -/
theorem c4_name_determines_field_epoch_witness :
    (((1 : ℤ), (1 : ℤ)) ≠ ((2 : ℤ), (1 : ℤ)))
    ∧ nameOf "T" "g" 100 0 1 1 ≠ nameOf "T" "g" 100 0 2 1 :=
  ⟨by decide,
    c4_name_determines_field_epoch "T" "g" "T" "g" 100 0 100 0 1 1 2 1
      (by decide) (by decide) (by decide) (by decide) (by decide)⟩

lemma epochStep_foldl (deltaT : ℚ) :
    ∀ (l : List ℚ) (ref : ℚ) (e : ℤ) (out : List ℤ),
      (l.foldl (epochStep deltaT) (ref, e, out)).2.2
        = out ++ epochsAux deltaT ref e l := by
  intro l
  induction l with
  | nil => intro ref e out; simp [epochsAux]
  | cons j t ih =>
    intro ref e out
    rw [List.foldl_cons, epochsAux]
    have hstep : epochStep deltaT (ref, e, out) j
        = if j ≤ ref + deltaT then (ref, e, out ++ [e])
          else (j, e + 1, out ++ [e + 1]) := rfl
    rw [hstep]
    by_cases hj : j ≤ ref + deltaT
    · rw [if_pos hj, if_pos hj, ih]
      simp
    · rw [if_neg hj, if_neg hj, ih]
      simp

lemma assignEpochs_eq_aux (deltaT : ℚ) (j0 : ℚ) (t : List ℚ) :
    assignEpochs deltaT (j0 :: t) = epochsAux deltaT j0 1 (j0 :: t) := by
  show (List.foldl (epochStep deltaT) (j0, 1, ([] : List ℤ)) (j0 :: t)).2.2
    = epochsAux deltaT j0 1 (j0 :: t)
  rw [epochStep_foldl]
  simp

lemma epochsAux_length (dT : ℚ) : ∀ (l : List ℚ) (ref : ℚ) (e : ℤ),
    (epochsAux dT ref e l).length = l.length := by
  intro l
  induction l with
  | nil => intro ref e; rfl
  | cons j t ih =>
    intro ref e
    rw [epochsAux]
    by_cases hj : j ≤ ref + dT
    · rw [if_pos hj]
      simp [ih]
    · rw [if_neg hj]
      simp [ih]

lemma epochsAux_tags_ge (dT : ℚ) : ∀ (l : List ℚ) (ref : ℚ) (e x : ℤ),
    x ∈ epochsAux dT ref e l → e ≤ x := by
  intro l
  induction l with
  | nil => intro ref e x hx; cases hx
  | cons j t ih =>
    intro ref e x hx
    rw [epochsAux] at hx
    by_cases hj : j ≤ ref + dT
    · rw [if_pos hj] at hx
      rcases List.mem_cons.mp hx with rfl | hx'
      · exact le_refl x
      · exact ih ref e x hx'
    · rw [if_neg hj] at hx
      rcases List.mem_cons.mp hx with rfl | hx'
      · omega
      · have := ih j (e + 1) x hx'
        omega

lemma epochsAux_chain (dT : ℚ) : ∀ (l : List ℚ) (ref : ℚ) (e : ℤ),
    List.Chain' (fun a b => b = a ∨ b = a + 1) (epochsAux dT ref e l)
    ∧ ∀ h ∈ (epochsAux dT ref e l).head?, h = e ∨ h = e + 1 := by
  intro l
  induction l with
  | nil =>
    intro ref e
    refine ⟨List.chain'_nil, ?_⟩
    intro h hh
    cases hh
  | cons j t ih =>
    intro ref e
    rw [epochsAux]
    by_cases hj : j ≤ ref + dT
    · rw [if_pos hj]
      obtain ⟨hc, hh⟩ := ih ref e
      refine ⟨List.chain'_cons'.mpr ⟨?_, hc⟩, ?_⟩
      · intro b hb
        rcases hh b hb with rfl | rfl
        · exact Or.inl rfl
        · exact Or.inr rfl
      · intro h hh2
        simp only [List.head?_cons, Option.mem_def, Option.some.injEq] at hh2
        subst hh2
        exact Or.inl rfl
    · rw [if_neg hj]
      obtain ⟨hc, hh⟩ := ih j (e + 1)
      refine ⟨List.chain'_cons'.mpr ⟨?_, hc⟩, ?_⟩
      · intro b hb
        rcases hh b hb with rfl | rfl
        · exact Or.inl rfl
        · exact Or.inr rfl
      · intro h hh2
        simp only [List.head?_cons, Option.mem_def, Option.some.injEq] at hh2
        subst hh2
        exact Or.inr rfl

lemma stair_mem : ∀ (t : List ℤ) (a : ℤ),
    List.Chain' (fun u v => v = u ∨ v = u + 1) (a :: t) →
    ∀ x, x ∈ a :: t ↔ a ≤ x ∧ x ≤ (a :: t).getLastD 0 := by
  intro t
  induction t with
  | nil =>
    intro a _ x
    simp only [List.mem_singleton, List.getLastD_cons, List.getLastD_nil]
    omega
  | cons b t' ih =>
    intro a hch x
    obtain ⟨hrel, hch'⟩ := List.chain'_cons'.mp hch
    have hrelab : b = a ∨ b = a + 1 := hrel b rfl
    have hIH := ih b hch' x
    have hbmem := (ih b hch' b).mp (by simp)
    rw [List.getLastD_cons] at hIH hbmem
    rw [List.getLastD_cons, List.getLastD_cons]
    constructor
    · intro hx
      rcases List.mem_cons.mp hx with rfl | hx'
      · have hb2 := hbmem.2
        rcases hrelab with rfl | rfl
        · exact ⟨le_refl _, hb2⟩
        · exact ⟨le_refl _, by omega⟩
      · have h2 := hIH.mp hx'
        rcases hrelab with rfl | rfl
        · exact ⟨h2.1, h2.2⟩
        · exact ⟨by omega, h2.2⟩
    · intro hx2
      by_cases hxb : b ≤ x
      · exact List.mem_cons_of_mem a (hIH.mpr ⟨hxb, hx2.2⟩)
      · have hxa : x = a := by
          rcases hrelab with rfl | rfl
          · omega
          · omega
        subst hxa
        exact List.mem_cons_self _ _

lemma epochsAux_seg (dT : ℚ) (hdT : 0 ≤ dT) :
    ∀ (l : List ℚ) (ref : ℚ) (e : ℤ),
      epochsAux dT ref e l
        = (l.takeWhile (fun j => decide (j ≤ ref + dT))).map (fun _ => e)
          ++ (match l.dropWhile (fun j => decide (j ≤ ref + dT)) with
              | [] => []
              | r :: t => epochsAux dT r (e + 1) (r :: t)) := by
  intro l
  induction l with
  | nil => intro ref e; rfl
  | cons j t ih =>
    intro ref e
    rw [epochsAux, List.takeWhile_cons, List.dropWhile_cons]
    by_cases hj : j ≤ ref + dT
    · rw [if_pos hj, if_pos (by simp [hj]), if_pos (by simp [hj]), ih ref e]
      simp
    · rw [if_neg hj, if_neg (by simp [hj]), if_neg (by simp [hj])]
      have hu : epochsAux dT j (e + 1) (j :: t)
          = (e + 1) :: epochsAux dT j (e + 1) t := by
        rw [epochsAux, if_pos (by linarith)]
      show (e + 1) :: epochsAux dT j (e + 1) t
        = List.map (fun _ => e) [] ++ epochsAux dT j (e + 1) (j :: t)
      rw [hu]
      simp

lemma zip_map_const (e : ℤ) : ∀ (l : List ℚ),
    l.zip (l.map (fun _ => e)) = l.map (fun j => (j, e)) := by
  intro l
  induction l with
  | nil => rfl
  | cons j t ih => rw [List.map_cons, List.map_cons, List.zip_cons_cons, ih]

lemma dropWhile_head_false {α : Type} {P : α → Bool} :
    ∀ (l : List α) {r1 : α} {t1 : List α},
      l.dropWhile P = r1 :: t1 → P r1 = false := by
  intro l
  induction l with
  | nil => intro r1 t1 h; cases h
  | cons a t ih =>
    intro r1 t1 h
    rw [List.dropWhile_cons] at h
    by_cases hpa : P a = true
    · rw [if_pos hpa] at h
      exact ih h
    · rw [if_neg hpa] at h
      injection h with h1 h2
      subst h1
      exact Bool.eq_false_iff.mpr hpa

lemma epochsAux_props (dT : ℚ) (hdT : 0 ≤ dT) :
    ∀ (n : ℕ) (l : List ℚ), l.length ≤ n → l.Sorted (· ≤ ·) →
      ∀ (r0 : ℚ) (t : List ℚ), l = r0 :: t → ∀ e : ℤ,
      epochRef l (epochsAux dT r0 e l) e = some r0
      ∧ (∀ q ∈ l.zip (epochsAux dT r0 e l), ∃ r : ℚ,
          epochRef l (epochsAux dT r0 e l) q.2 = some r
          ∧ r ≤ q.1 ∧ q.1 ≤ r + dT)
      ∧ (∀ e1 e2 r1 r2, e1 < e2 →
          epochRef l (epochsAux dT r0 e l) e1 = some r1 →
          epochRef l (epochsAux dT r0 e l) e2 = some r2 → r1 < r2) := by
  intro n
  induction n with
  | zero =>
    intro l hlen _ r0 t hl e
    subst hl
    simp at hlen
  | succ n ih =>
    intro l hlen hs r0 t hl e
    subst hl
    have hpr0 : (fun j => decide (j ≤ r0 + dT)) r0 = true := by
      simp only [decide_eq_true_eq]
      linarith
    have hseg : (r0 :: t).takeWhile (fun j => decide (j ≤ r0 + dT))
        = r0 :: t.takeWhile (fun j => decide (j ≤ r0 + dT)) := by
      rw [List.takeWhile_cons, if_pos hpr0]
    have hdrop : (r0 :: t).dropWhile (fun j => decide (j ≤ r0 + dT))
        = t.dropWhile (fun j => decide (j ≤ r0 + dT)) := by
      rw [List.dropWhile_cons, if_pos hpr0]
    have hsplit : (r0 :: t.takeWhile (fun j => decide (j ≤ r0 + dT)))
        ++ t.dropWhile (fun j => decide (j ≤ r0 + dT)) = r0 :: t := by
      rw [← hseg, ← hdrop]
      exact List.takeWhile_append_dropWhile _ _
    have hout : epochsAux dT r0 e (r0 :: t)
        = (r0 :: t.takeWhile (fun j => decide (j ≤ r0 + dT))).map (fun _ => e)
          ++ (match t.dropWhile (fun j => decide (j ≤ r0 + dT)) with
              | [] => []
              | r :: t' => epochsAux dT r (e + 1) (r :: t')) := by
      rw [epochsAux_seg dT hdT (r0 :: t) r0 e, hseg, hdrop]
    have hsegmem : ∀ j ∈ r0 :: t.takeWhile (fun j => decide (j ≤ r0 + dT)),
        r0 ≤ j ∧ j ≤ r0 + dT := by
      intro j hj
      constructor
      · apply sorted_head_le hs
        rcases List.mem_cons.mp hj with rfl | hj'
        · exact List.mem_cons_self _ _
        · exact List.mem_cons_of_mem _ ((List.takeWhile_sublist _).subset hj')
      · rcases List.mem_cons.mp hj with rfl | hj'
        · linarith
        · have hP := List.mem_takeWhile_imp hj'
          simpa using hP
    rcases hl' : t.dropWhile (fun j => decide (j ≤ r0 + dT)) with _ | ⟨r1, t1⟩
    · rw [hl'] at hout hsplit
      rw [List.append_nil] at hsplit
      rw [hsplit] at hout
      have hout2 : epochsAux dT r0 e (r0 :: t)
          = (r0 :: t).map (fun _ => e) := by
        rw [hout]
        simp
      have hzl : (r0 :: t).zip (epochsAux dT r0 e (r0 :: t))
          = (r0 :: t).map (fun j => (j, e)) := by
        rw [hout2, zip_map_const]
      have hC : epochRef (r0 :: t) (epochsAux dT r0 e (r0 :: t)) e = some r0 := by
        unfold epochRef
        rw [hzl, List.map_cons, List.find?_cons_of_pos _ (by simp)]
        rfl
      refine ⟨hC, ?_, ?_⟩
      · intro q hq
        rw [hzl] at hq
        obtain ⟨j, hj, rfl⟩ := List.mem_map.mp hq
        refine ⟨r0, hC, ?_, ?_⟩
        · exact (hsegmem j (by rw [hsplit]; exact hj)).1
        · exact (hsegmem j (by rw [hsplit]; exact hj)).2
      · intro e1 e2 r1 r2 hlt h1 h2
        exfalso
        have htag : ∀ q ∈ (r0 :: t).zip (epochsAux dT r0 e (r0 :: t)),
            q.2 = e := by
          rw [hzl]
          intro q hq
          obtain ⟨j, hj, rfl⟩ := List.mem_map.mp hq
          rfl
        have hfind : ∀ x : ℤ, x ≠ e →
            epochRef (r0 :: t) (epochsAux dT r0 e (r0 :: t)) x = none := by
          intro x hx
          unfold epochRef
          rw [List.find?_eq_none.mpr (fun q hq => by
            rw [htag q hq]
            simp only [beq_iff_eq]
            exact fun hc => hx hc.symm)]
          rfl
        by_cases he1 : e1 = e
        · have he2 : e2 ≠ e := by omega
          rw [hfind e2 he2] at h2
          cases h2
        · rw [hfind e1 he1] at h1
          cases h1
    · rw [hl'] at hout hsplit
      have hout2 : epochsAux dT r0 e (r0 :: t)
          = (r0 :: t.takeWhile (fun j => decide (j ≤ r0 + dT))).map (fun _ => e)
            ++ epochsAux dT r1 (e + 1) (r1 :: t1) := hout
      have hPfalse : (fun j => decide (j ≤ r0 + dT)) r1 = false :=
        dropWhile_head_false t hl'
      have hr1gt : r0 + dT < r1 := by
        simp only [decide_eq_false_iff_not] at hPfalse
        linarith [lt_of_not_le hPfalse]
      have hsubsorted : (r1 :: t1).Sorted (· ≤ ·) := by
        apply hs.sublist
        rw [← hl']
        exact (List.dropWhile_sublist _).trans (List.sublist_cons_self _ _)
      have hgt_all : ∀ j ∈ r1 :: t1, r0 + dT < j := by
        intro j hj
        have h1 : r1 ≤ j := sorted_head_le hsubsorted hj
        linarith
      have hlen' : (r1 :: t1).length ≤ n := by
        have h1 := (List.dropWhile_sublist
          (l := t) (fun j => decide (j ≤ r0 + dT))).length_le
        rw [hl'] at h1
        have h2 : (r0 :: t).length = t.length + 1 := by simp
        omega
      obtain ⟨IH1, IH2, IH3⟩ := ih (r1 :: t1) hlen' hsubsorted r1 t1 rfl (e + 1)
      have hzl : (r0 :: t).zip (epochsAux dT r0 e (r0 :: t))
          = (r0 :: t.takeWhile (fun j => decide (j ≤ r0 + dT))).map
              (fun j => (j, e))
            ++ (r1 :: t1).zip (epochsAux dT r1 (e + 1) (r1 :: t1)) := by
        conv_lhs => rw [hout2, ← hsplit]
        rw [List.zip_append (by simp), zip_map_const]
      have htrans : ∀ x : ℤ, x ≠ e →
          epochRef (r0 :: t) (epochsAux dT r0 e (r0 :: t)) x
            = epochRef (r1 :: t1) (epochsAux dT r1 (e + 1) (r1 :: t1)) x := by
        intro x hx
        unfold epochRef
        rw [hzl, List.find?_append]
        rw [List.find?_eq_none.mpr (fun q hq => by
          obtain ⟨j, hj, rfl⟩ := List.mem_map.mp hq
          simp only [beq_iff_eq]
          exact fun hc => hx hc.symm)]
        rw [Option.none_or]
      have hC : epochRef (r0 :: t) (epochsAux dT r0 e (r0 :: t)) e = some r0 := by
        unfold epochRef
        rw [hzl, List.map_cons, List.cons_append,
          List.find?_cons_of_pos _ (by simp)]
        rfl
      refine ⟨hC, ?_, ?_⟩
      · intro q hq
        rw [hzl] at hq
        rcases List.mem_append.mp hq with hq1 | hq2
        · obtain ⟨j, hj, rfl⟩ := List.mem_map.mp hq1
          exact ⟨r0, hC, (hsegmem j hj).1, (hsegmem j hj).2⟩
        · rcases q with ⟨j, x⟩
          have hx2 : x ∈ epochsAux dT r1 (e + 1) (r1 :: t1) :=
            (List.of_mem_zip hq2).2
          have hxe : x ≠ e := by
            have := epochsAux_tags_ge dT (r1 :: t1) r1 (e + 1) x hx2
            omega
          obtain ⟨r, hr, hb1, hb2⟩ := IH2 ⟨j, x⟩ hq2
          refine ⟨r, ?_, hb1, hb2⟩
          rw [htrans x hxe]
          exact hr
      · intro e1 e2 r1' r2' hlt h1 h2
        rcases lt_trichotomy e1 e with hc1 | hc1 | hc1
        · exfalso
          have hnone : epochRef (r0 :: t) (epochsAux dT r0 e (r0 :: t)) e1
              = none := by
            unfold epochRef
            rw [List.find?_eq_none.mpr ?_]
            · rfl
            · intro q hq
              rw [hzl] at hq
              simp only [beq_iff_eq]
              intro hqe
              rcases List.mem_append.mp hq with hq1 | hq2
              · obtain ⟨j, hj, rfl⟩ := List.mem_map.mp hq1
                have : e = e1 := hqe
                omega
              · rcases q with ⟨j, x⟩
                have hx2 : x ∈ epochsAux dT r1 (e + 1) (r1 :: t1) :=
                  (List.of_mem_zip hq2).2
                have := epochsAux_tags_ge dT (r1 :: t1) r1 (e + 1) x hx2
                have : x = e1 := hqe
                omega
          rw [hnone] at h1
          cases h1
        · subst hc1
          have hr1eq : r1' = r0 := by
            rw [hC] at h1
            exact (Option.some.inj h1).symm
          rw [htrans e2 (by omega)] at h2
          have hr2mem : r2' ∈ r1 :: t1 := by
            unfold epochRef at h2
            rcases hfind : ((r1 :: t1).zip
                (epochsAux dT r1 (e1 + 1) (r1 :: t1))).find?
                (fun q => q.2 == e2) with _ | q
            · rw [hfind] at h2
              cases h2
            · rw [hfind] at h2
              have hqmem := List.mem_of_find?_eq_some hfind
              have hq1 : q.1 = r2' := Option.some.inj h2
              rcases q with ⟨a, b⟩
              rw [← hq1]
              exact (List.of_mem_zip hqmem).1
          have := hgt_all r2' hr2mem
          rw [hr1eq]
          linarith
        · rw [htrans e1 (by omega)] at h1
          rw [htrans e2 (by omega)] at h2
          exact IH3 e1 e2 r1' r2' hlt h1 h2

/-- C5: with `deltaTHours ≥ 0` and the field members in ascending timestamp
order (as `table_obs` guarantees via the sort at stacking.py line 152), the
epoch loop of lines 228-240 assigns (1) epoch ids forming exactly the
contiguous range `1..k`; (2) to every member a timestamp within
`[reference, reference + deltaT]`, where the epoch reference is the
timestamp of the epoch's first member; and (3) strictly increasing
references across epoch ids. -/
theorem c5_epoch_partition (deltaT : ℚ) (jds : List ℚ)
    (hs : jds.Sorted (· ≤ ·)) (hd : 0 ≤ deltaT) (hne : jds ≠ []) :
    (∃ k : ℤ, ∀ x : ℤ, x ∈ assignEpochs deltaT jds ↔ 1 ≤ x ∧ x ≤ k)
    ∧ (∀ q ∈ jds.zip (assignEpochs deltaT jds), ∃ r : ℚ,
        epochRef jds (assignEpochs deltaT jds) q.2 = some r
        ∧ r ≤ q.1 ∧ q.1 ≤ r + deltaT)
    ∧ (∀ e1 e2 r1 r2, e1 < e2 →
        epochRef jds (assignEpochs deltaT jds) e1 = some r1 →
        epochRef jds (assignEpochs deltaT jds) e2 = some r2 → r1 < r2) := by
  obtain ⟨j0, t, rfl⟩ := List.exists_cons_of_ne_nil hne
  rw [assignEpochs_eq_aux]
  obtain ⟨hC, hD, hF⟩ := epochsAux_props deltaT hd (j0 :: t).length (j0 :: t)
    le_rfl hs j0 t rfl 1
  refine ⟨?_, hD, hF⟩
  have hhead : epochsAux deltaT j0 1 (j0 :: t)
      = 1 :: epochsAux deltaT j0 1 t := by
    rw [epochsAux, if_pos (by linarith)]
  obtain ⟨hch, _⟩ := epochsAux_chain deltaT (j0 :: t) j0 1
  rw [hhead] at hch
  refine ⟨(1 :: epochsAux deltaT j0 1 t).getLastD 0, ?_⟩
  intro x
  rw [hhead]
  exact stair_mem _ 1 hch x

/-- C5 witness: `deltaT = 1` on the sorted timestamps `[0, 2, 3]` (epochs
`[1, 2, 2]`, references 0 and 2) satisfies all three properties. -/
theorem c5_epoch_partition_witness :
    (List.Sorted (· ≤ ·) [(0 : ℚ), 2, 3]) ∧ (0 : ℚ) ≤ 1
    ∧ ((∃ k : ℤ, ∀ x : ℤ, x ∈ assignEpochs 1 [0, 2, 3] ↔ 1 ≤ x ∧ x ≤ k)
      ∧ (∀ q ∈ ([(0 : ℚ), 2, 3]).zip (assignEpochs 1 [0, 2, 3]), ∃ r : ℚ,
          epochRef [0, 2, 3] (assignEpochs 1 [0, 2, 3]) q.2 = some r
          ∧ r ≤ q.1 ∧ q.1 ≤ r + 1)
      ∧ (∀ e1 e2 r1 r2, e1 < e2 →
          epochRef [0, 2, 3] (assignEpochs 1 [0, 2, 3]) e1 = some r1 →
          epochRef [0, 2, 3] (assignEpochs 1 [0, 2, 3]) e2 = some r2 →
          r1 < r2)) :=
  ⟨by decide, by norm_num,
    c5_epoch_partition 1 [0, 2, 3] (by decide) (by norm_num) (by simp)⟩

lemma scanStep_eval (radius : ℝ) (r : Obs) (assigns : List FAssign)
    (st : ScanSt) (k : ℤ) :
    scanStep radius r assigns st k
      = (if sepDeg r.ra r.dec (fieldRefCoords assigns k).1
              (fieldRefCoords assigns k).2 < radius
            ∧ sepDeg r.ra r.dec (fieldRefCoords assigns k).1
              (fieldRefCoords assigns k).2 < st.sepMin
        then ⟨sepDeg r.ra r.dec (fieldRefCoords assigns k).1
              (fieldRefCoords assigns k).2, k,
            (fieldRefCoords assigns k).1, (fieldRefCoords assigns k).2⟩
        else ⟨st.sepMin, st.fieldRef,
            (fieldRefCoords assigns k).1, (fieldRefCoords assigns k).2⟩) := rfl

lemma clusterStep_eval (radius : ℝ) (st : ℤ × List FAssign) (r : Obs) :
    clusterStep radius st r
      = (if (scanFields radius r st.2).fieldRef ≠ -1 then
          (st.1, st.2 ++ [⟨r.idx, r.ra, r.dec,
            (scanFields radius r st.2).fieldRef,
            (scanFields radius r st.2).raRef,
            (scanFields radius r st.2).decRef⟩])
        else
          (st.1 + 1, st.2 ++ [⟨r.idx, r.ra, r.dec, st.1 + 1, r.ra, r.dec⟩])) :=
  rfl

lemma scanFields_zero (r : Obs) (assigns : List FAssign) :
    (scanFields 0 r assigns).fieldRef = -1 := by
  unfold scanFields
  have main : ∀ (keys : List ℤ) (st : ScanSt), st.fieldRef = -1 →
      (keys.foldl (scanStep 0 r assigns) st).fieldRef = -1 := by
    intro keys
    induction keys with
    | nil => intro st h; exact h
    | cons k t ih =>
      intro st h
      rw [List.foldl_cons]
      apply ih
      rw [scanStep_eval]
      rw [if_neg]
      · exact h
      · rintro ⟨h1, _⟩
        exact absurd h1 (not_lt.mpr (sepDeg_nonneg _ _ _ _))
  exact main _ _ rfl

lemma clusterStep_zero (st : ℤ × List FAssign) (r : Obs) :
    clusterStep 0 st r
      = (st.1 + 1, st.2 ++ [⟨r.idx, r.ra, r.dec, st.1 + 1, r.ra, r.dec⟩]) := by
  rw [clusterStep_eval]
  rw [if_neg]
  intro hne
  exact hne (scanFields_zero r st.2)

/-- C7 amended: with `radius = 0` the strict test `sep < radius` at
stacking.py line 202 never succeeds (separations are non-negative), so
*every* record opens its own field: the i-th record of the partition
receives `fieldID = i + 1`, and no two records — identical coordinates or
not — share a field. -/
theorem c7_zero_radius_singletons (rs : List Obs) :
    (clusterFields 0 rs).map FAssign.fieldID
      = (List.range rs.length).map (fun (i : ℕ) => (i : ℤ) + 1) := by
  have main : ∀ (rest : List Obs) (nf : ℤ) (assigns : List FAssign),
      nf = (assigns.length : ℤ) →
      assigns.map FAssign.fieldID
        = (List.range assigns.length).map (fun (i : ℕ) => (i : ℤ) + 1) →
      ((rest.foldl (clusterStep 0) (nf, assigns)).2).map FAssign.fieldID
        = (List.range (assigns.length + rest.length)).map
            (fun (i : ℕ) => (i : ℤ) + 1) := by
    intro rest
    induction rest with
    | nil =>
      intro nf assigns h1 h2
      simpa using h2
    | cons r rest ih =>
      intro nf assigns h1 h2
      rw [List.foldl_cons, clusterStep_zero]
      have hlen2 : (assigns
          ++ [(⟨r.idx, r.ra, r.dec, nf + 1, r.ra, r.dec⟩ : FAssign)]).length
          = assigns.length + 1 := by simp
      have hmap : (assigns
            ++ [(⟨r.idx, r.ra, r.dec, nf + 1, r.ra, r.dec⟩ : FAssign)]).map
            FAssign.fieldID
          = (List.range (assigns
              ++ [(⟨r.idx, r.ra, r.dec, nf + 1, r.ra, r.dec⟩ : FAssign)]).length).map
            (fun (i : ℕ) => (i : ℤ) + 1) := by
        rw [List.map_append, h2, hlen2, List.range_succ, List.map_append]
        simp [h1]
      have hih := ih (nf + 1)
        (assigns ++ [⟨r.idx, r.ra, r.dec, nf + 1, r.ra, r.dec⟩])
        (by rw [hlen2]; rw [h1]; push_cast; ring) hmap
      rw [hih, hlen2]
      rw [show assigns.length + 1 + rest.length
          = assigns.length + (r :: rest).length by simp; omega]
  cases rs with
  | nil => rfl
  | cons r0 rest =>
    show ((rest.foldl (clusterStep 0)
        (1, [⟨r0.idx, r0.ra, r0.dec, 1, r0.ra, r0.dec⟩])).2).map FAssign.fieldID
      = (List.range (r0 :: rest).length).map (fun (i : ℕ) => (i : ℤ) + 1)
    rw [main rest 1 [⟨r0.idx, r0.ra, r0.dec, 1, r0.ra, r0.dec⟩] (by simp)
      (by simp [List.range_succ])]
    rw [show ([(⟨r0.idx, r0.ra, r0.dec, 1, r0.ra, r0.dec⟩ : FAssign)].length
        + rest.length) = (r0 :: rest).length by simp [Nat.add_comm]]

/-- C7 counterexample: two records with *identical* coordinates `(10, 0)`
and `radius = 0` are placed in two different singleton fields (ids 1 and 2),
not in a common field per distinct coordinate value. -/
theorem c7_identical_coords_split :
    (clusterFields 0 [⟨0, 10, 0⟩, ⟨1, 10, 0⟩]).map FAssign.fieldID = [1, 2]
    ∧ (clusterFields 0 [⟨0, 10, 0⟩, ⟨1, 10, 0⟩]).map (fun a => (a.ra, a.dec))
      = [(10, 0), (10, 0)] := by
  have h : clusterFields 0 [⟨0, 10, 0⟩, ⟨1, 10, 0⟩]
      = [⟨0, 10, 0, 1, 10, 0⟩, ⟨1, 10, 0, 2, 10, 0⟩] := by
    show (List.foldl (clusterStep 0) (1, [⟨0, 10, 0, 1, 10, 0⟩])
      [⟨1, 10, 0⟩]).2 = _
    rw [List.foldl_cons, clusterStep_zero]
    rfl
  rw [h]
  exact ⟨rfl, rfl⟩

lemma scanFields_inv (radius : ℝ) (r : Obs) (assigns : List FAssign) :
    (scanFields radius r assigns).sepMin ≤ 100
    ∧ ((scanFields radius r assigns).fieldRef ≠ -1 →
        sepDeg r.ra r.dec
            (fieldRefCoords assigns (scanFields radius r assigns).fieldRef).1
            (fieldRefCoords assigns (scanFields radius r assigns).fieldRef).2
          = (scanFields radius r assigns).sepMin
        ∧ (scanFields radius r assigns).sepMin < 100
        ∧ (scanFields radius r assigns).sepMin < radius) := by
  unfold scanFields
  have main : ∀ (keys : List ℤ) (st : ScanSt),
      st.sepMin ≤ 100 →
      (st.fieldRef ≠ -1 →
        sepDeg r.ra r.dec (fieldRefCoords assigns st.fieldRef).1
            (fieldRefCoords assigns st.fieldRef).2 = st.sepMin
        ∧ st.sepMin < 100 ∧ st.sepMin < radius) →
      ((keys.foldl (scanStep radius r assigns) st).sepMin ≤ 100
        ∧ ((keys.foldl (scanStep radius r assigns) st).fieldRef ≠ -1 →
          sepDeg r.ra r.dec
              (fieldRefCoords assigns
                (keys.foldl (scanStep radius r assigns) st).fieldRef).1
              (fieldRefCoords assigns
                (keys.foldl (scanStep radius r assigns) st).fieldRef).2
            = (keys.foldl (scanStep radius r assigns) st).sepMin
          ∧ (keys.foldl (scanStep radius r assigns) st).sepMin < 100
          ∧ (keys.foldl (scanStep radius r assigns) st).sepMin < radius)) := by
    intro keys
    induction keys with
    | nil => intro st h1 h2; exact ⟨h1, h2⟩
    | cons k t ih =>
      intro st h1 h2
      rw [List.foldl_cons, scanStep_eval]
      by_cases hc : sepDeg r.ra r.dec (fieldRefCoords assigns k).1
          (fieldRefCoords assigns k).2 < radius
        ∧ sepDeg r.ra r.dec (fieldRefCoords assigns k).1
          (fieldRefCoords assigns k).2 < st.sepMin
      · rw [if_pos hc]
        apply ih
        · show sepDeg r.ra r.dec (fieldRefCoords assigns k).1
            (fieldRefCoords assigns k).2 ≤ 100
          linarith [hc.2]
        · intro _
          refine ⟨rfl, by linarith [hc.2], hc.1⟩
      · rw [if_neg hc]
        apply ih
        · exact h1
        · exact h2
  exact main _ _ (by norm_num) (fun h => absurd rfl h)

lemma scanFields_far (radius : ℝ) (r : Obs) (assigns : List FAssign)
    (hfar : ∀ k ∈ fieldKeys assigns,
      100 ≤ sepDeg r.ra r.dec (fieldRefCoords assigns k).1
        (fieldRefCoords assigns k).2) :
    (scanFields radius r assigns).fieldRef = -1 := by
  unfold scanFields
  have main : ∀ (keys : List ℤ),
      (∀ k ∈ keys, 100 ≤ sepDeg r.ra r.dec (fieldRefCoords assigns k).1
        (fieldRefCoords assigns k).2) →
      ∀ st : ScanSt, st.sepMin ≤ 100 → st.fieldRef = -1 →
      ((keys.foldl (scanStep radius r assigns) st).fieldRef = -1) := by
    intro keys
    induction keys with
    | nil => intro _ st _ h2; exact h2
    | cons k t ih =>
      intro hks st h1 h2
      rw [List.foldl_cons, scanStep_eval]
      rw [if_neg]
      · exact ih (fun k' hk' => hks k' (by simp [hk'])) _ h1 h2
      · rintro ⟨_, hlt⟩
        have := hks k (by simp)
        linarith
  exact main _ hfar _ (by norm_num) rfl

/-- C9: the running minimum `sep_min` is initialised to 100 degrees
(stacking.py line 188) and the selection test at line 202 requires
`sep < sep_min` as well as `sep < radius`, so a record is never assigned to
an existing field whose reference coordinate lies 100 degrees or more away —
even when `radius` exceeds 100 — and a record at separation at least 100
from every existing field always opens a new field. -/
theorem c9_hundred_degree_cap (radius : ℝ) (nf : ℤ) (assigns : List FAssign)
    (r : Obs) :
    ((scanFields radius r assigns).fieldRef ≠ -1 →
      sepDeg r.ra r.dec
          (fieldRefCoords assigns (scanFields radius r assigns).fieldRef).1
          (fieldRefCoords assigns (scanFields radius r assigns).fieldRef).2
        < 100)
    ∧ ((∀ k ∈ fieldKeys assigns,
          100 ≤ sepDeg r.ra r.dec (fieldRefCoords assigns k).1
            (fieldRefCoords assigns k).2) →
        clusterStep radius (nf, assigns) r
          = (nf + 1, assigns
              ++ [⟨r.idx, r.ra, r.dec, nf + 1, r.ra, r.dec⟩])) := by
  constructor
  · intro h
    obtain ⟨hb1, hb2⟩ := scanFields_inv radius r assigns
    obtain ⟨heq, hlt, _⟩ := hb2 h
    rw [heq]
    exact hlt
  · intro hfar
    rw [clusterStep_eval]
    rw [if_neg]
    intro hne
    exact hne (scanFields_far radius r assigns hfar)

lemma c9_eval : scanFields 200 ⟨1, 1/2, 0⟩ [⟨0, 0, 0, 1, 0, 0⟩]
    = ⟨1/2, 1, 0, 0⟩ := by
  have hsep : sepDeg (1/2 : ℝ) 0 0 0 = 1/2 := by
    rw [sepDeg_equator (1/2) 0 (by norm_num) (by norm_num), sub_zero]
    exact abs_of_pos (by norm_num)
  unfold scanFields
  rw [show fieldKeys [(⟨0, 0, 0, 1, 0, 0⟩ : FAssign)] = [1] from rfl]
  rw [List.foldl_cons, List.foldl_nil, scanStep_eval]
  rw [show fieldRefCoords [(⟨0, 0, 0, 1, 0, 0⟩ : FAssign)] 1 = (0, 0) from rfl]
  dsimp only
  rw [hsep]
  rw [if_pos (by norm_num)]

/-- C9 witness: with `radius = 200` and one existing field at reference
`(0, 0)`, the record at `(0.5, 0)` is matched to it, and the separation to
the selected field's reference is below 100 degrees. -/
theorem c9_hundred_degree_cap_witness :
    ((scanFields 200 ⟨1, 1/2, 0⟩ [⟨0, 0, 0, 1, 0, 0⟩]).fieldRef ≠ -1)
    ∧ sepDeg (1/2 : ℝ) 0
        (fieldRefCoords [⟨0, 0, 0, 1, 0, 0⟩]
          (scanFields 200 ⟨1, 1/2, 0⟩ [⟨0, 0, 0, 1, 0, 0⟩]).fieldRef).1
        (fieldRefCoords [⟨0, 0, 0, 1, 0, 0⟩]
          (scanFields 200 ⟨1, 1/2, 0⟩ [⟨0, 0, 0, 1, 0, 0⟩]).fieldRef).2
      < 100 := by
  have hne : (scanFields 200 ⟨1, 1/2, 0⟩ [⟨0, 0, 0, 1, 0, 0⟩]).fieldRef ≠ -1 := by
    rw [c9_eval]
    decide
  exact ⟨hne,
    (c9_hundred_degree_cap 200 1 [⟨0, 0, 0, 1, 0, 0⟩] ⟨1, 1/2, 0⟩).1 hne⟩

lemma c2_sep_50 : sepDeg (50 : ℝ) 0 0 0 = 50 := by
  rw [sepDeg_equator 50 0 (by norm_num) (by norm_num), sub_zero]
  exact abs_of_pos (by norm_num)

lemma c2_sep_01 : sepDeg (1/10 : ℝ) 0 0 0 = 1/10 := by
  rw [sepDeg_equator (1/10) 0 (by norm_num) (by norm_num), sub_zero]
  exact abs_of_pos (by norm_num)

lemma c2_sep_far : sepDeg (1/10 : ℝ) 0 50 0 = 499/10 := by
  rw [sepDeg_equator (1/10) 50 (by norm_num) (by norm_num)]
  rw [abs_of_neg (by norm_num)]
  norm_num

lemma c2_eval1 : scanFields 1 ⟨1, 50, 0⟩ [⟨0, 0, 0, 1, 0, 0⟩]
    = ⟨100, -1, 0, 0⟩ := by
  unfold scanFields
  rw [show fieldKeys [(⟨0, 0, 0, 1, 0, 0⟩ : FAssign)] = [1] from rfl]
  rw [List.foldl_cons, List.foldl_nil, scanStep_eval]
  rw [show fieldRefCoords [(⟨0, 0, 0, 1, 0, 0⟩ : FAssign)] 1 = (0, 0) from rfl]
  dsimp only
  rw [c2_sep_50]
  rw [if_neg (by norm_num)]

lemma c2_eval2 : scanFields 1 ⟨2, 1/10, 0⟩
    [⟨0, 0, 0, 1, 0, 0⟩, ⟨1, 50, 0, 2, 50, 0⟩] = ⟨1/10, 1, 50, 0⟩ := by
  unfold scanFields
  rw [show fieldKeys [(⟨0, 0, 0, 1, 0, 0⟩ : FAssign), ⟨1, 50, 0, 2, 50, 0⟩]
    = [1, 2] from rfl]
  rw [List.foldl_cons, scanStep_eval]
  rw [show fieldRefCoords [(⟨0, 0, 0, 1, 0, 0⟩ : FAssign), ⟨1, 50, 0, 2, 50, 0⟩] 1
    = (0, 0) from rfl]
  dsimp only
  rw [c2_sep_01]
  rw [if_pos (by norm_num)]
  rw [List.foldl_cons, List.foldl_nil, scanStep_eval]
  rw [show fieldRefCoords [(⟨0, 0, 0, 1, 0, 0⟩ : FAssign), ⟨1, 50, 0, 2, 50, 0⟩] 2
    = (50, 0) from rfl]
  dsimp only
  rw [c2_sep_far]
  rw [if_neg (by norm_num)]

/-- C2: the loop variables `ra_ref`/`dec_ref` are overwritten on every
iteration of the field loop (stacking.py lines 196-197), so when the
selected (minimum-separation) field is not the last field examined, the
record is written with the *last examined* field's reference, not the
selected field's.  Concretely: records at `(0,0)`, `(50,0)`, `(0.1,0)` (in
time order) with `radius = 1` produce fields 1 and 2, and the third record
is correctly assigned `fieldID = 1` but receives `RA_ref = 50`, the
reference of field 2, instead of field 1's reference 0. -/
theorem c2_wrong_reference_written :
    clusterFields 1 [⟨0, 0, 0⟩, ⟨1, 50, 0⟩, ⟨2, 1/10, 0⟩]
      = [⟨0, 0, 0, 1, 0, 0⟩, ⟨1, 50, 0, 2, 50, 0⟩, ⟨2, 1/10, 0, 1, 50, 0⟩]
    ∧ ((50 : ℝ) ≠ 0) := by
  constructor
  · show (List.foldl (clusterStep 1) (1, [⟨0, 0, 0, 1, 0, 0⟩])
      [⟨1, 50, 0⟩, ⟨2, 1/10, 0⟩]).2 = _
    rw [List.foldl_cons, clusterStep_eval]
    dsimp only
    rw [c2_eval1]
    rw [if_neg (by decide)]
    show (List.foldl (clusterStep 1)
      (2, [⟨0, 0, 0, 1, 0, 0⟩, ⟨1, 50, 0, 2, 50, 0⟩]) [⟨2, 1/10, 0⟩]).2 = _
    rw [List.foldl_cons, List.foldl_nil, clusterStep_eval]
    dsimp only
    rw [c2_eval2]
    rw [if_pos (by decide)]
    rfl
  · norm_num
